import Mathlib

/-!
Verification of the Discord frontend adapter (`cmd_line_bot/ends/discord_frontend.py`).

Shallow embedding conventions:
* Python `str` values that are processed character-by-character are `List Char`;
  names (channel / user / server names) stay as Lean `String`.
* `text.split("\n")` is `splitLines`, `str.split()` (whitespace split) is `splitWS`.
* Raised exceptions become `Except` / an `Option PyError` field.
* The `discord` library and the `CLBData` store are external collaborators;
  they are modelled from the spec's interface description (exact-name
  enumeration of servers / channels / members; a keyed `get`/`set` store).
-/

/-- The newline character on which `split_text` splits. -/
def nlChar : Char := '\n'

/-- Discord's message length limit used by `split_text` (`max_len = 2000`). -/
def max_len : Nat := 2000

/-- Python `text.split("\n")`: always non-empty, lines do not contain the
separator.  `splitLines [] = [[]]` mirrors `"".split("\n") == [""]`. -/
def splitLines : List Char → List (List Char)
  | [] => [[]]
  | c :: rest =>
    if c = nlChar then
      [] :: splitLines rest
    else
      match splitLines rest with
      | [] => [[c]]
      | l :: ls => (c :: l) :: ls

/-- One iteration of the loop body of `split_text`: mutate `result[-1]` or
append a fresh segment (`result[-1] += line + "\n"` / `result.append(line + "\n")`). -/
def splitStep (result : List (List Char)) (line : List Char) : List (List Char) :=
  if result.getLast!.length + line.length < max_len then
    result.dropLast ++ [result.getLast! ++ line ++ [nlChar]]
  else
    result ++ [line ++ [nlChar]]

/-- `DiscordOutputFrontEnd.split_text`: greedy accumulation of lines into
segments, starting from `result = [""]`. -/
def split_text (text : List Char) : List (List Char) :=
  (splitLines text).foldl splitStep [[]]

/-- Tail-recursive reformulation of the `split_text` loop: `cur` is the
segment currently being grown (`result[-1]`), finished segments are emitted. -/
def split_text_go (cur : List Char) : List (List Char) → List (List Char)
  | [] => [cur]
  | line :: rest =>
    if cur.length + line.length < max_len then
      split_text_go (cur ++ line ++ [nlChar]) rest
    else
      cur :: split_text_go (line ++ [nlChar]) rest

/-- Drop every newline character (used to compare texts "ignoring
line-terminator characters"). -/
def removeNl (cs : List Char) : List Char :=
  cs.filter (fun c => c != nlChar)

/-- Whitespace in the sense of Python `str.split()` (ASCII fragment). -/
def isWs (c : Char) : Bool :=
  c == ' ' || c == '\t' || c == '\n' || c == '\r' || c == '\x0b' || c == '\x0c'

/-- Worker for `splitWS`; `cur` collects the current (reversed) word. -/
def splitWSGo (cur : List Char) : List Char → List (List Char)
  | [] => if cur = [] then [] else [cur.reverse]
  | c :: rest =>
    if isWs c then
      if cur = [] then splitWSGo [] rest
      else cur.reverse :: splitWSGo [] rest
    else
      splitWSGo (c :: cur) rest

/-- Python `content.split()`: split on whitespace runs, dropping empty words. -/
def splitWS (cs : List Char) : List (List Char) :=
  splitWSGo [] cs

/-- The literal placeholder substituted for whitespace-only segments. -/
def placeholder : List Char := "<EMPTY STRING>".toList

/-- `DiscordOutputFrontEnd.fix_content`: replace a segment with no
non-whitespace character by the placeholder. -/
def fix_content (content : List Char) : List Char :=
  if (splitWS content).length = 0 then placeholder else content

/-- The one-time session separator text sent by `_send_msg`. -/
def sepText : List Char :=
  "-------------------- New Session Start --------------------".toList

theorem splitLines_ne_nil (cs : List Char) : splitLines cs ≠ [] := by
  cases cs with
  | nil => simp [splitLines]
  | cons c rest =>
    simp only [splitLines]
    by_cases h : c = nlChar
    · simp [h]
    · simp only [h, if_false]
      cases splitLines rest with
      | nil => simp
      | cons l ls => simp

theorem split_text_foldl_eq_go (lines : List (List Char)) :
    ∀ (acc : List (List Char)) (cur : List Char),
      lines.foldl splitStep (acc ++ [cur]) = acc ++ split_text_go cur lines := by
  induction lines with
  | nil => intro acc cur; simp [split_text_go]
  | cons line rest ih =>
    intro acc cur
    simp only [List.foldl_cons, split_text_go, splitStep]
    have hlast : (acc ++ [cur]).getLast! = cur :=
      List.getLast!_of_getLast? (List.getLast?_concat acc)
    rw [hlast, List.dropLast_concat]
    by_cases h : cur.length + line.length < max_len
    · simp only [h, if_true]
      exact ih acc (cur ++ line ++ [nlChar])
    · simp only [h, if_false]
      rw [ih (acc ++ [cur]) (line ++ [nlChar])]
      simp

theorem split_text_eq_go (text : List Char) :
    split_text text = split_text_go [] (splitLines text) := by
  have := split_text_foldl_eq_go (splitLines text) [] []
  simpa [split_text] using this

theorem split_text_go_length_le (lines : List (List Char)) :
    ∀ cur : List Char, (∀ l ∈ lines, l.length < max_len) →
      cur.length ≤ max_len →
      ∀ seg ∈ split_text_go cur lines, seg.length ≤ max_len := by
  induction lines with
  | nil =>
    intro cur _ hc seg hseg
    simp [split_text_go] at hseg
    simpa [hseg] using hc
  | cons line rest ih =>
    intro cur hl hc seg hseg
    have hline : line.length < max_len := hl line (by simp)
    have hrest : ∀ l ∈ rest, l.length < max_len := fun l hm => hl l (by simp [hm])
    simp only [split_text_go] at hseg
    by_cases h : cur.length + line.length < max_len
    · simp only [h, if_true] at hseg
      refine ih (cur ++ line ++ [nlChar]) hrest ?_ seg hseg
      simp only [List.length_append, List.length_cons, List.length_nil]
      omega
    · simp only [h, if_false, List.mem_cons] at hseg
      rcases hseg with hseg | hseg
      · simpa [hseg] using hc
      · refine ih (line ++ [nlChar]) hrest ?_ seg hseg
        simp only [List.length_append, List.length_cons, List.length_nil]
        omega

theorem split_text_go_join (lines : List (List Char)) :
    ∀ cur : List Char,
      (split_text_go cur lines).flatten
        = cur ++ (lines.map (fun l => l ++ [nlChar])).flatten := by
  induction lines with
  | nil => intro cur; simp [split_text_go]
  | cons line rest ih =>
    intro cur
    simp only [split_text_go]
    by_cases h : cur.length + line.length < max_len
    · simp only [h, if_true, ih]
      simp [List.append_assoc]
    · simp only [h, if_false, List.flatten_cons, ih]
      simp [List.append_assoc]

theorem splitLines_join_map_nl (text : List Char) :
    ((splitLines text).map (fun l => l ++ [nlChar])).flatten = text ++ [nlChar] := by
  induction text with
  | nil => simp [splitLines]
  | cons c rest ih =>
    simp only [splitLines]
    by_cases h : c = nlChar
    · simp only [h, if_true, List.map_cons, List.flatten_cons]
      rw [ih]
      simp
    · simp only [h, if_false]
      rcases hsl : splitLines rest with _ | ⟨l, ls⟩
      · exact absurd hsl (splitLines_ne_nil rest)
      · rw [hsl] at ih
        simp only [List.map_cons, List.flatten_cons] at ih ⊢
        simp only [List.cons_append, List.append_assoc] at ih ⊢
        rw [ih]

theorem removeNl_append (a b : List Char) :
    removeNl (a ++ b) = removeNl a ++ removeNl b := by
  simp [removeNl]

theorem removeNl_nl : removeNl [nlChar] = [] := by
  simp [removeNl]

theorem split_text_join (text : List Char) :
    (split_text text).flatten = text ++ [nlChar] := by
  rw [split_text_eq_go, split_text_go_join]
  simpa using splitLines_join_map_nl text

theorem splitLines_no_nl (cs : List Char) (h : nlChar ∉ cs) : splitLines cs = [cs] := by
  induction cs with
  | nil => rfl
  | cons c rest ih =>
    have hc : ¬ c = nlChar := by
      intro hh
      exact h (by simp [hh])
    have hrest : nlChar ∉ rest := fun hh => h (List.mem_cons_of_mem _ hh)
    simp [splitLines, hc, ih hrest]

theorem split_text_go_last (lines : List (List Char)) :
    ∀ cur, lines ≠ [] →
      ∃ front p, split_text_go cur lines = front ++ [p ++ [nlChar]] := by
  induction lines with
  | nil => intro cur h; exact absurd rfl h
  | cons line rest ih =>
    intro cur _
    simp only [split_text_go]
    by_cases h : cur.length + line.length < max_len
    · simp only [h, if_true]
      cases rest with
      | nil => exact ⟨[], cur ++ line, by simp [split_text_go]⟩
      | cons r rs =>
        obtain ⟨front, p, hfp⟩ := ih (cur ++ line ++ [nlChar]) (by simp)
        exact ⟨front, p, hfp⟩
    · simp only [h, if_false]
      cases rest with
      | nil => exact ⟨[cur], line, by simp [split_text_go]⟩
      | cons r rs =>
        obtain ⟨front, p, hfp⟩ := ih (line ++ [nlChar]) (by simp)
        exact ⟨cur :: front, p, by simp [hfp]⟩

theorem split_text_last_decomp (t : List Char) :
    ∃ front p, split_text t = front ++ [p ++ [nlChar]] := by
  rw [split_text_eq_go]
  exact split_text_go_last (splitLines t) [] (splitLines_ne_nil t)

theorem split_text_ne_nil (t : List Char) : split_text t ≠ [] := by
  obtain ⟨front, p, h⟩ := split_text_last_decomp t
  simp [h]

theorem split_text_getLast_nl (t : List Char) :
    ∃ p, (split_text t).getLast! = p ++ [nlChar] := by
  obtain ⟨front, p, h⟩ := split_text_last_decomp t
  refine ⟨p, ?_⟩
  rw [h]
  exact List.getLast!_of_getLast? (List.getLast?_concat front)

theorem split_text_go_seg_ends (lines : List (List Char)) :
    ∀ cur, (cur = [] ∨ ∃ p, cur = p ++ [nlChar]) →
      ∀ seg ∈ split_text_go cur lines, seg = [] ∨ ∃ p, seg = p ++ [nlChar] := by
  induction lines with
  | nil =>
    intro cur hc seg hseg
    simp [split_text_go] at hseg
    simpa [hseg] using hc
  | cons line rest ih =>
    intro cur hc seg hseg
    simp only [split_text_go] at hseg
    by_cases h : cur.length + line.length < max_len
    · simp only [h, if_true] at hseg
      exact ih (cur ++ line ++ [nlChar]) (Or.inr ⟨cur ++ line, rfl⟩) seg hseg
    · simp only [h, if_false, List.mem_cons] at hseg
      rcases hseg with hseg | hseg
      · simpa [hseg] using hc
      · exact ih (line ++ [nlChar]) (Or.inr ⟨line, rfl⟩) seg hseg

theorem split_text_seg_ends (t : List Char) :
    ∀ seg ∈ split_text t, seg = [] ∨ ∃ p, seg = p ++ [nlChar] := by
  rw [split_text_eq_go]
  exact split_text_go_seg_ends (splitLines t) [] (Or.inl rfl)

/-- A single long line as input to `split_text`. -/
def longLineW : List Char := List.replicate 1999 'x'

/-- C1 (amended): for every input text all of whose lines are strictly shorter
than the 2000-unit limit, every segment produced by `split_text` has length at
most 2000 units (the limit can be reached exactly, but never exceeded). -/
theorem C1_segment_bound (t : List Char)
    (h : ∀ l ∈ splitLines t, l.length < max_len) :
    ∀ seg ∈ split_text t, seg.length ≤ max_len := by
  rw [split_text_eq_go]
  exact split_text_go_length_le (splitLines t) [] h (by simp)

/-- Witness for `C1_segment_bound` at the concrete one-line input `"a"`. -/
theorem C1_segment_bound_witness :
    (∀ l ∈ splitLines ['a'], l.length < max_len)
    ∧ ∀ seg ∈ split_text ['a'], seg.length ≤ max_len :=
  ⟨by decide, C1_segment_bound ['a'] (by decide)⟩

/-- C1 counterexample: a single line of 1999 characters is strictly under the
2000-unit limit, yet `split_text` produces a segment of length exactly 2000
(the line plus the re-attached newline), so the claimed strict bound fails. -/
theorem C1_counterexample :
    (∀ l ∈ splitLines longLineW, l.length < max_len)
    ∧ ¬ (∀ seg ∈ split_text longLineW, seg.length < max_len) := by
  have hnl : nlChar ∉ longLineW := by
    intro hmem
    simp only [longLineW, List.mem_replicate] at hmem
    exact absurd hmem.2 (by decide)
  have hsplit : splitLines longLineW = [longLineW] := splitLines_no_nl _ hnl
  constructor
  · rw [hsplit]
    intro l hl
    rw [List.mem_singleton] at hl
    subst hl
    simp only [longLineW, List.length_replicate, max_len]
    omega
  · rw [split_text_eq_go, hsplit]
    have hcond : ([] : List Char).length + longLineW.length < max_len := by
      simp only [List.length_nil, longLineW, List.length_replicate, max_len]
      omega
    have hres : split_text_go [] [longLineW] = [longLineW ++ [nlChar]] := by
      simp only [split_text_go, if_pos hcond, List.nil_append]
    rw [hres]
    intro hcontra
    have h2 := hcontra (longLineW ++ [nlChar]) (by simp)
    simp only [List.length_append, longLineW, List.length_replicate, List.length_cons,
      List.length_nil, max_len] at h2
    omega

/-- C2: concatenating every segment produced by `split_text` and dropping
newline characters reproduces the original text with its newline characters
dropped; segmentation loses no non-newline character and invents none. -/
theorem C2_segmentation_lossless (t : List Char) :
    removeNl ((split_text t).flatten) = removeNl t := by
  rw [split_text_join, removeNl_append, removeNl_nl, List.append_nil]

/-- C10: for every input text, `split_text` returns a non-empty list, its last
segment ends with a newline character, and the concatenation of all segments is
exactly the input followed by one appended newline; hence the file-delivery
path's access to the last segment is defined and the text sent with a file
carries a trailing newline not present in the caller's input. -/
theorem C10_split_nonempty_trailing_newline (t : List Char) :
    split_text t ≠ []
    ∧ (∃ p, (split_text t).getLast! = p ++ [nlChar])
    ∧ (split_text t).flatten = t ++ [nlChar] :=
  ⟨split_text_ne_nil t, split_text_getLast_nl t, split_text_join t⟩

/-- A Discord channel (only the exact name matters for lookup). -/
structure DChannel where
  name : String
deriving DecidableEq, Repr

/-- A Discord user / server member. -/
structure DUser where
  name : String
deriving DecidableEq, Repr

/-- A Discord server (guild) with its channels and members. -/
structure DServer where
  name : String
  channels : List DChannel
  members : List DUser
deriving DecidableEq, Repr

/-- The chat client handle: the set of servers visible after login. -/
structure DClient where
  servers : List DServer
deriving DecidableEq, Repr

/-- Modelled from the spec: the `CLBData` configuration collaborator (not under
`src/`), reduced to the single key the frontend uses, `servername`
(`get(category, key) -> optional string`, `set(category, key, value)`). -/
structure DataStore where
  servername : Option String
deriving DecidableEq, Repr

/-- `DiscordConfig`: the resolved active server plus the data store. -/
structure ConfigState where
  server : Option DServer
  data : DataStore
deriving DecidableEq, Repr

/-- Exceptions the frontend can raise (CLBError variants plus the Python-level
TypeError from a bad keyword argument and AttributeError from `None.split`). -/
inductive PyError
  | clbServerNotConfigured
  | clbUnknownChannel (channelname : String)
  | clbUnknownUser (username : String)
  | clbInitOutsideServer
  | typeError
  | attributeError
deriving DecidableEq, Repr

/-- `DiscordConfig.set_server`: bind the server and persist its name. -/
def set_server (cfg : ConfigState) (server : DServer) : ConfigState :=
  { server := some server, data := { servername := some server.name } }

/-- `DiscordConfig.set_server_named`: first exact-name match among the
client's visible servers is bound; returns whether a match was found. -/
def set_server_named (client : DClient) (cfg : ConfigState) (servername : String) :
    Bool × ConfigState :=
  match client.servers.find? (fun server => servername == server.name) with
  | some server => (true, set_server cfg server)
  | none => (false, cfg)

/-- `DiscordConfig.get_server`: return the bound server; if unset, read the
configured name (raising `CLBError` when absent) and try to bind it, then
return `self.server` (possibly still `None`). -/
def get_server (client : DClient) (cfg : ConfigState) :
    Except PyError (ConfigState × Option DServer) :=
  match cfg.server with
  | some s => Except.ok (cfg, some s)
  | none =>
    match cfg.data.servername with
    | none => Except.error PyError.clbServerNotConfigured
    | some sn =>
      let r := set_server_named client cfg sn
      Except.ok (r.2, r.2.server)

/-- Modelled from the spec: the discord library's `Server.get_member_named`,
described as member enumeration by exact name. -/
def get_member_named (server : DServer) (username : String) : Option DUser :=
  server.members.find? (fun u => u.name == username)

/-- `DiscordConfig.get_channel_named`: resolve the server, then linear search
of its channels by exact name. -/
def get_channel_named (client : DClient) (cfg : ConfigState) (channelname : String) :
    Except PyError (ConfigState × Option DChannel) :=
  match get_server client cfg with
  | Except.error e => Except.error e
  | Except.ok (cfg2, none) => Except.ok (cfg2, none)
  | Except.ok (cfg2, some server) =>
    Except.ok (cfg2, server.channels.find? (fun channel => channelname == channel.name))

/-- `DiscordConfig.get_user_named`: resolve the server, then `get_member_named`. -/
def get_user_named (client : DClient) (cfg : ConfigState) (username : String) :
    Except PyError (ConfigState × Option DUser) :=
  match get_server client cfg with
  | Except.error e => Except.error e
  | Except.ok (cfg2, none) => Except.ok (cfg2, none)
  | Except.ok (cfg2, some server) => Except.ok (cfg2, get_member_named server username)

theorem find?_of_filter_singleton {α : Type} (p : α → Bool) (l : List α) (a : α)
    (h : l.filter p = [a]) : l.find? p = some a := by
  induction l with
  | nil => simp at h
  | cons x xs ih =>
    by_cases hp : p x
    · rw [List.filter_cons_of_pos hp] at h
      rw [List.find?_cons_of_pos _ hp]
      injection h with h1 h2
      rw [h1]
    · rw [List.filter_cons_of_neg hp] at h
      rw [List.find?_cons_of_neg _ hp]
      exact ih h

/-- Example fixture: one server named `"S"` with channel `"general"` and member `"u"`. -/
def serverW : DServer := ⟨"S", [⟨"general"⟩], [⟨"u"⟩]⟩

/-- Example fixture: a client that sees exactly `serverW`. -/
def clientW : DClient := ⟨[serverW]⟩

/-- Example fixture: no bound server, no configured server name. -/
def cfgUnsetW : ConfigState := ⟨none, ⟨none⟩⟩

/-- Example fixture: `serverW` already bound. -/
def cfgBoundW : ConfigState := ⟨some serverW, ⟨some "S"⟩⟩

/-- Example fixture: no bound server, configured name matching no visible server. -/
def cfgMissW : ConfigState := ⟨none, ⟨some "Nope"⟩⟩

/-- C7: `set_server_named` with a name matching exactly one visible server
binds that server as active, persists its name in the data store, makes
subsequent channel / user lookups search within it, and returns `true`; with a
name matching no visible server it returns `false` and leaves the whole
configuration (bound server and store) unchanged. -/
theorem C7_resolve_server (client : DClient) (cfg : ConfigState) (n m : String) (s : DServer)
    (h1 : client.servers.filter (fun sv => n == sv.name) = [s])
    (h2 : ∀ sv ∈ client.servers, m ≠ sv.name) :
    set_server_named client cfg n = (true, set_server cfg s)
    ∧ (set_server cfg s).server = some s
    ∧ (set_server cfg s).data.servername = some s.name
    ∧ (∀ q, get_channel_named client (set_server cfg s) q
        = Except.ok (set_server cfg s, s.channels.find? (fun c => q == c.name)))
    ∧ (∀ q, get_user_named client (set_server cfg s) q
        = Except.ok (set_server cfg s, get_member_named s q))
    ∧ set_server_named client cfg m = (false, cfg) := by
  have hfind : client.servers.find? (fun sv => n == sv.name) = some s :=
    find?_of_filter_singleton _ _ _ h1
  have hnone : client.servers.find? (fun sv => m == sv.name) = none := by
    rw [List.find?_eq_none]
    intro sv hsv hp
    exact h2 sv hsv (eq_of_beq hp)
  refine ⟨?_, rfl, rfl, ?_, ?_, ?_⟩
  · simp [set_server_named, hfind]
  · intro q
    simp [get_channel_named, get_server, set_server]
  · intro q
    simp [get_user_named, get_server, set_server]
  · simp [set_server_named, hnone]

/-- Witness for `C7_resolve_server` on the one-server fixture, with the
matching name `"S"` and the unmatched name `"Missing"`. -/
theorem C7_resolve_server_witness :
    set_server_named clientW cfgUnsetW "S" = (true, set_server cfgUnsetW serverW)
    ∧ set_server_named clientW cfgUnsetW "Missing" = (false, cfgUnsetW) := by
  have h := C7_resolve_server clientW cfgUnsetW "S" "Missing" serverW (by decide) (by decide)
  exact ⟨h.1, h.2.2.2.2.2⟩

/-- C6 (amended): when a server is already bound, `get_channel_named` /
`get_user_named` search it and return `none` exactly when no exact-name match
exists; when the server is unset and no name is configured they RAISE
`CLBError` (they do not return `none`); when the server is unset and the
configured name matches no visible server they return `none`. -/
theorem C6_lookup_amended (client : DClient) (cfg : ConfigState) (n : String) (s : DServer) :
    (cfg.server = none → cfg.data.servername = none →
      get_channel_named client cfg n = Except.error PyError.clbServerNotConfigured
      ∧ get_user_named client cfg n = Except.error PyError.clbServerNotConfigured)
    ∧ (cfg.server = some s →
      get_channel_named client cfg n
          = Except.ok (cfg, s.channels.find? (fun c => n == c.name))
      ∧ get_user_named client cfg n = Except.ok (cfg, get_member_named s n))
    ∧ (∀ sn, cfg.server = none → cfg.data.servername = some sn →
      client.servers.find? (fun sv => sn == sv.name) = none →
      get_channel_named client cfg n = Except.ok (cfg, none)
      ∧ get_user_named client cfg n = Except.ok (cfg, none)) := by
  refine ⟨?_, ?_, ?_⟩
  · intro h1 h2
    constructor <;> simp [get_channel_named, get_user_named, get_server, h1, h2]
  · intro h1
    constructor <;> simp [get_channel_named, get_user_named, get_server, h1]
  · intro sn h1 h2 hf
    have hset : set_server_named client cfg sn = (false, cfg) := by
      simp [set_server_named, hf]
    constructor <;> simp [get_channel_named, get_user_named, get_server, h1, h2, hset]

/-- C6 counterexample: with the active server unset and no server name
configured, the lookups raise `CLBError` instead of returning `none`, refuting
the claim's never-raise guarantee for the unset-server case. -/
theorem C6_counterexample :
    get_channel_named clientW cfgUnsetW "general" = Except.error PyError.clbServerNotConfigured
    ∧ get_user_named clientW cfgUnsetW "u" = Except.error PyError.clbServerNotConfigured :=
  ⟨rfl, rfl⟩

/-- Witness for `C6_lookup_amended`: a bound-server lookup and a
configured-but-unmatched-name lookup at concrete inputs. -/
theorem C6_lookup_amended_witness :
    get_channel_named clientW cfgBoundW "general"
        = Except.ok (cfgBoundW, serverW.channels.find? (fun c => "general" == c.name))
    ∧ get_user_named clientW cfgMissW "u" = Except.ok (cfgMissW, none) := by
  refine ⟨((C6_lookup_amended clientW cfgBoundW "general" serverW).2.1 rfl).1, ?_⟩
  exact ((C6_lookup_amended clientW cfgMissW "u" serverW).2.2 "Nope" rfl rfl (by decide)).2

/-- Origin of an incoming message: a named server channel or a private (DM)
channel (`discord.Channel` vs `discord.PrivateChannel`). -/
inductive MsgChannel
  | chan (name : String)
  | priv
deriving DecidableEq, Repr

/-- An incoming raw message (`discord.Message` fields the handler reads). -/
structure InMsg where
  content : String
  authorName : String
  channel : MsgChannel
  server : Option DServer
deriving DecidableEq, Repr

/-- `CLBCmdLine_Msg` / `CLBCmdLine_DM`: the normalized command line. -/
inductive CLBCmdLine
  | msg (content : String) (author : String) (channelname : String)
  | dm (content : String) (author : String)
deriving DecidableEq, Repr

/-- Observable effects of the inbound handler: the acknowledgement reply sent
by `init_client` (the source text reads "initしました") and the callback
invocation with a command line. -/
inductive InEffect
  | replyAck
  | callbackCmd (c : CLBCmdLine)
deriving DecidableEq, Repr

/-- `DiscordInputFrontEnd.init_client`: raise unless the message originated
inside a server; otherwise bind that server and reply. -/
def init_client (cfg : ConfigState) (msg : InMsg) : Except PyError (ConfigState × List InEffect) :=
  match msg.server with
  | none => Except.error PyError.clbInitOutsideServer
  | some s => Except.ok (set_server cfg s, [InEffect.replyAck])

/-- `DiscordInputFrontEnd.on_message`: optionally process the init command,
then (independently) classify the message and invoke the callback. -/
def on_message (initCmd : String) (cfg : ConfigState) (msg : InMsg) :
    Except PyError (ConfigState × List InEffect) :=
  match (if msg.content == initCmd then init_client cfg msg else Except.ok (cfg, [])) with
  | Except.error e => Except.error e
  | Except.ok (cfg2, evs) =>
    match msg.channel with
    | MsgChannel.chan nm =>
      Except.ok (cfg2, evs ++ [InEffect.callbackCmd (CLBCmdLine.msg msg.content msg.authorName nm)])
    | MsgChannel.priv =>
      Except.ok (cfg2, evs ++ [InEffect.callbackCmd (CLBCmdLine.dm msg.content msg.authorName)])

/-- C8: a message in a named server channel whose text equals the configured
init command is both processed as initialization (the originating server is
bound and an acknowledgement reply is emitted) and still emitted as a normal
channel-message command line to the callback. -/
theorem C8_init_dual (initCmd : String) (cfg : ConfigState) (msg : InMsg)
    (s : DServer) (nm : String)
    (h1 : msg.content = initCmd) (h2 : msg.channel = MsgChannel.chan nm)
    (h3 : msg.server = some s) :
    on_message initCmd cfg msg
      = Except.ok (set_server cfg s,
          [InEffect.replyAck,
           InEffect.callbackCmd (CLBCmdLine.msg msg.content msg.authorName nm)])
    ∧ (set_server cfg s).server = some s := by
  constructor
  · simp [on_message, init_client, h1, h2, h3]
  · rfl

/-- Example fixture: the default init command sent inside channel `"general"`. -/
def initMsgW : InMsg := ⟨"!init", "alice", MsgChannel.chan "general", some serverW⟩

/-- Witness for `C8_init_dual` at a concrete init message. -/
theorem C8_init_dual_witness :
    on_message "!init" cfgUnsetW initMsgW
      = Except.ok (set_server cfgUnsetW serverW,
          [InEffect.replyAck,
           InEffect.callbackCmd (CLBCmdLine.msg "!init" "alice" "general")]) :=
  (C8_init_dual "!init" cfgUnsetW initMsgW serverW "general" rfl rfl rfl).1

theorem splitWSGo_eq_nil (cs : List Char) :
    ∀ cur, splitWSGo cur cs = [] ↔ (cur = [] ∧ cs.all isWs) := by
  induction cs with
  | nil =>
    intro cur
    by_cases h : cur = [] <;> simp [splitWSGo, h]
  | cons c rest ih =>
    intro cur
    simp only [splitWSGo]
    by_cases hw : isWs c
    · by_cases h : cur = []
      · rw [if_pos hw, if_pos h, ih []]
        simp [h, hw]
      · rw [if_pos hw, if_neg h]
        simp [h]
    · rw [if_neg hw, ih (c :: cur)]
      simp [hw]

theorem fix_content_eq (s : List Char) :
    fix_content s = if s.all isWs then placeholder else s := by
  by_cases h : s.all isWs = true
  · have hnil : splitWSGo [] s = [] := (splitWSGo_eq_nil s []).mpr ⟨rfl, h⟩
    simp [fix_content, splitWS, hnil, h]
  · have hne : splitWSGo [] s ≠ [] := by
      intro hh
      exact h ((splitWSGo_eq_nil s []).mp hh).2
    simp [fix_content, splitWS, h, List.length_eq_zero, hne]

theorem fix_content_ne_sep (seg : List Char)
    (h : seg = [] ∨ ∃ p, seg = p ++ [nlChar]) : fix_content seg ≠ sepText := by
  rw [fix_content_eq]
  by_cases ha : seg.all isWs = true
  · rw [if_pos ha]
    decide
  · rw [if_neg ha]
    rcases h with h | ⟨p, h⟩
    · subst h
      simp at ha
    · subst h
      intro heq
      have h1 : (p ++ [nlChar]).getLast? = some nlChar := List.getLast?_concat p
      rw [heq] at h1
      have h2 : sepText.getLast? = some '-' := by decide
      rw [h1] at h2
      exact absurd (Option.some.inj h2) (by decide)

theorem fix_content_split_ne_sep (t : List Char) :
    ∀ seg ∈ split_text t, fix_content seg ≠ sepText := fun seg hm =>
  fix_content_ne_sep seg (split_text_seg_ends t seg hm)

/-- A delivery destination: a channel or a user. -/
inductive SendDest
  | channel (c : DChannel)
  | user (u : DUser)
deriving DecidableEq, Repr

/-- One chat-client call made during delivery: `client.send_message` or
`client.send_file`. -/
inductive SendEvent
  | message (d : SendDest) (content : List Char)
  | file (d : SendDest) (fp : String) (content : Option (List Char))
deriving DecidableEq, Repr

/-- `DiscordOutputFrontEnd._send_message`: every segment is passed through
`fix_content` and sent as a plain message, in order. -/
def send_message_events (d : SendDest) (content : List Char) : List SendEvent :=
  (split_text content).map (fun s => SendEvent.message d (fix_content s))

/-- `DiscordOutputFrontEnd._send_file`: with no text, just the file; otherwise
all segments but the last are sent as fixed plain messages and the file is sent
with the raw last segment (`splitted_text[-1]`, no `fix_content`). -/
def send_file_events (d : SendDest) (fp : String) (content : Option (List Char)) :
    List SendEvent :=
  match content with
  | none => [SendEvent.file d fp none]
  | some text =>
    (split_text text).dropLast.map (fun s => SendEvent.message d (fix_content s))
      ++ [SendEvent.file d fp (some ((split_text text).getLast!))]

/-- The parameter names of `_send_file` (after `self`). -/
def sendFileParams : List String := ["client", "destination", "fp", "content"]

/-- Keyword arguments used at the `_send_file` call site inside `_send_msg`. -/
def sendMsgFileKwargs : List String := ["client", "destination", "fp", "content"]

/-- Keyword arguments used at the `_send_file` call site inside `_send_dm`;
note the misspelled `destinaion`. -/
def sendDmFileKwargs : List String := ["client", "destinaion", "fp", "content"]

/-- Python keyword binding for a call to `_send_file`: every keyword must name
a parameter and every parameter (none has a default) must be bound; otherwise
the call raises `TypeError` before the body runs. -/
def kwargsValid (kwargs : List String) : Bool :=
  kwargs.all (fun k => sendFileParams.contains k)
    && sendFileParams.all (fun p => kwargs.contains p)

/-- `DiscordOutputFrontEnd` instance state: the shared config plus the
`initial_msg` session-separator flag. -/
structure OutState where
  cfg : ConfigState
  initial_msg : Bool
deriving DecidableEq, Repr

/-- Outcome of one `send_msg` / `send_dm` call: updated state, chat-client
calls actually performed, and the raised exception if any. -/
structure StepResult where
  state : OutState
  events : List SendEvent
  err : Option PyError
deriving DecidableEq, Repr

/-- `send_msg` / `_send_msg`: resolve the channel (raising on failure), send
the one-time separator if this is the first channel send, then deliver the
text (and file, if any). -/
def send_msg_step (client : DClient) (st : OutState) (channelname : String)
    (text : Option (List Char)) (filename : Option String) : StepResult :=
  match get_channel_named client st.cfg channelname with
  | Except.error e => ⟨st, [], some e⟩
  | Except.ok (cfg2, none) =>
    ⟨⟨cfg2, st.initial_msg⟩, [], some (PyError.clbUnknownChannel channelname)⟩
  | Except.ok (cfg2, some channel) =>
    let d := SendDest.channel channel
    let sepEvents := if st.initial_msg then [SendEvent.message d sepText] else []
    let st2 : OutState := ⟨cfg2, false⟩
    match filename with
    | none =>
      match text with
      | none => ⟨st2, sepEvents, some PyError.attributeError⟩
      | some t => ⟨st2, sepEvents ++ send_message_events d t, none⟩
    | some fp =>
      if kwargsValid sendMsgFileKwargs then
        ⟨st2, sepEvents ++ send_file_events d fp text, none⟩
      else
        ⟨st2, sepEvents, some PyError.typeError⟩

/-- `send_dm` / `_send_dm`: resolve the user (raising on failure) and deliver;
there is no separator logic here, and the file branch calls `_send_file` with
the misspelled keyword set `sendDmFileKwargs`. -/
def send_dm_step (client : DClient) (st : OutState) (username : String)
    (text : Option (List Char)) (filename : Option String) : StepResult :=
  match get_user_named client st.cfg username with
  | Except.error e => ⟨st, [], some e⟩
  | Except.ok (cfg2, none) =>
    ⟨⟨cfg2, st.initial_msg⟩, [], some (PyError.clbUnknownUser username)⟩
  | Except.ok (cfg2, some user) =>
    let d := SendDest.user user
    let st2 : OutState := ⟨cfg2, st.initial_msg⟩
    match filename with
    | none =>
      match text with
      | none => ⟨st2, [], some PyError.attributeError⟩
      | some t => ⟨st2, send_message_events d t, none⟩
    | some fp =>
      if kwargsValid sendDmFileKwargs then
        ⟨st2, send_file_events d fp text, none⟩
      else
        ⟨st2, [], some PyError.typeError⟩

/-- A public send request on the output adapter. -/
inductive SendReq
  | msg (channelname : String) (text : Option (List Char)) (filename : Option String)
  | dm (username : String) (text : Option (List Char)) (filename : Option String)
deriving DecidableEq, Repr

/-- Dispatch one send request. -/
def send_step (client : DClient) (st : OutState) : SendReq → StepResult
  | SendReq.msg ch t f => send_msg_step client st ch t f
  | SendReq.dm u t f => send_dm_step client st u t f

/-- Run a sequence of sends on one adapter instance, accumulating every
chat-client call in order (a raised error ends that send but not the run). -/
def run_sends (client : DClient) : OutState → List SendReq → OutState × List SendEvent
  | st, [] => (st, [])
  | st, r :: rs =>
    let res := send_step client st r
    let rest := run_sends client res.state rs
    (rest.1, res.events ++ rest.2)

/-- Recognize the session-separator message among delivered events. -/
def isSepEvent (e : SendEvent) : Bool :=
  match e with
  | SendEvent.message _ c => c == sepText
  | SendEvent.file _ _ _ => false

/-- Number of session-separator messages in a delivery trace. -/
def sepCount (evs : List SendEvent) : Nat := evs.countP isSepEvent

/-- Recognize file-attachment deliveries. -/
def isFileEvent (e : SendEvent) : Bool :=
  match e with
  | SendEvent.message _ _ => false
  | SendEvent.file _ _ _ => true

/-- Number of file-attachment deliveries in a delivery trace. -/
def fileCount (evs : List SendEvent) : Nat := evs.countP isFileEvent

theorem fileCount_message_map (d : SendDest) (f : List Char → List Char)
    (l : List (List Char)) :
    fileCount (l.map (fun s => SendEvent.message d (f s))) = 0 := by
  rw [fileCount, List.countP_eq_zero]
  intro e he
  simp only [List.mem_map] at he
  obtain ⟨s, -, rfl⟩ := he
  simp [isFileEvent]

theorem fileCount_sep_events (b : Bool) (d : SendDest) :
    fileCount (if b then [SendEvent.message d sepText] else []) = 0 := by
  cases b <;> simp [fileCount, List.countP_cons, isFileEvent]

theorem sepCount_message_map (d : SendDest) (t : List Char) :
    sepCount (send_message_events d t) = 0 := by
  rw [send_message_events, sepCount, List.countP_eq_zero]
  intro e he
  simp only [List.mem_map] at he
  obtain ⟨s, hs, rfl⟩ := he
  simp only [isSepEvent]
  intro hbeq
  exact fix_content_split_ne_sep t s hs (eq_of_beq hbeq)

theorem sepCount_file_events (d : SendDest) (fp : String) (oc : Option (List Char)) :
    sepCount (send_file_events d fp oc) = 0 := by
  cases oc with
  | none => simp [send_file_events, sepCount, List.countP_cons, isSepEvent]
  | some t =>
    rw [send_file_events, sepCount, List.countP_eq_zero]
    intro e he
    simp only [List.mem_append, List.mem_map, List.mem_singleton] at he
    rcases he with ⟨s, hs, rfl⟩ | rfl
    · simp only [isSepEvent]
      intro hbeq
      have hmem : s ∈ split_text t := (List.dropLast_sublist (split_text t)).subset hs
      exact fix_content_split_ne_sep t s hmem (eq_of_beq hbeq)
    · simp [isSepEvent]

/-- C5 (amended): a segment is replaced by the placeholder exactly when it has
no non-whitespace character, and this fixed form is what `_send_message`
delivers for every segment and `_send_file` delivers for all but the last
segment; the last segment of a file delivery is attached unmodified, even when
it is whitespace-only. -/
theorem C5_placeholder_amended (s : List Char) (d : SendDest) (fp : String) (t : List Char) :
    fix_content s = (if s.all isWs then placeholder else s)
    ∧ send_message_events d t
        = (split_text t).map (fun seg => SendEvent.message d (fix_content seg))
    ∧ send_file_events d fp (some t)
        = (split_text t).dropLast.map (fun seg => SendEvent.message d (fix_content seg))
          ++ [SendEvent.file d fp (some ((split_text t).getLast!))] :=
  ⟨fix_content_eq s, rfl, rfl⟩

/-- C5 counterexample: delivering the empty text with a file to a resolved
channel sends the file together with the raw whitespace-only segment
(a lone newline), not the placeholder, refuting the claim for the last
segment of file deliveries. -/
theorem C5_counterexample :
    (send_msg_step clientW ⟨cfgBoundW, false⟩ "general" (some []) (some "f.png")).events
      = [SendEvent.file (SendDest.channel ⟨"general"⟩) "f.png" (some [nlChar])]
    ∧ [nlChar].all isWs = true
    ∧ ([nlChar] : List Char) ≠ placeholder := by
  refine ⟨rfl, by decide, by decide⟩

/-- C4: `send_dm` with a file always raises: the `_send_file` call inside
`_send_dm` passes the misspelled keyword `destinaion`, which matches no
parameter of `_send_file`, so for every resolved user and any text the call
fails with `TypeError` and delivers nothing. -/
theorem C4_dm_file_always_raises (client : DClient) (st : OutState) (uname : String)
    (t : Option (List Char)) (fp : String) (cfg2 : ConfigState) (u : DUser)
    (hu : get_user_named client st.cfg uname = Except.ok (cfg2, some u)) :
    (send_dm_step client st uname t (some fp)).err = some PyError.typeError
    ∧ (send_dm_step client st uname t (some fp)).events = [] := by
  have hkw : kwargsValid sendDmFileKwargs = false := by decide
  simp [send_dm_step, hu, hkw]

/-- Witness for `C4_dm_file_always_raises` at a concrete resolved user. -/
theorem C4_dm_file_always_raises_witness :
    (send_dm_step clientW ⟨cfgBoundW, true⟩ "u" (some ['h', 'i']) (some "f.png")).err
        = some PyError.typeError
    ∧ (send_dm_step clientW ⟨cfgBoundW, true⟩ "u" (some ['h', 'i']) (some "f.png")).events
        = [] :=
  C4_dm_file_always_raises clientW ⟨cfgBoundW, true⟩ "u" (some ['h', 'i']) "f.png"
    cfgBoundW ⟨"u"⟩ rfl

/-- C3 (amended): for `send_msg` with a file, non-`None` text and a resolving
channel, exactly one delivered unit carries the file, it is last in the
delivery sequence, and every earlier unit is a plain message; for `send_dm`
with a file the misspelled keyword aborts the call with `TypeError`, so
nothing (in particular no file) is delivered. -/
theorem C3_file_attachment_amended (client : DClient) (st : OutState)
    (chname uname : String) (t : List Char) (fp : String)
    (cfgA cfgB : ConfigState) (ch : DChannel) (u : DUser)
    (hch : get_channel_named client st.cfg chname = Except.ok (cfgA, some ch))
    (hu : get_user_named client st.cfg uname = Except.ok (cfgB, some u)) :
    ((send_msg_step client st chname (some t) (some fp)).err = none
      ∧ fileCount (send_msg_step client st chname (some t) (some fp)).events = 1
      ∧ ∃ pre, (send_msg_step client st chname (some t) (some fp)).events
            = pre ++ [SendEvent.file (SendDest.channel ch) fp (some ((split_text t).getLast!))]
          ∧ ∀ e ∈ pre, isFileEvent e = false)
    ∧ (send_dm_step client st uname (some t) (some fp)).err = some PyError.typeError
    ∧ (send_dm_step client st uname (some t) (some fp)).events = [] := by
  have hkw : kwargsValid sendMsgFileKwargs = true := by decide
  have hkwd : kwargsValid sendDmFileKwargs = false := by decide
  refine ⟨?_, ?_, ?_⟩
  · simp only [send_msg_step, hch, hkw, if_true, send_file_events]
    refine ⟨by trivial, ?_, ?_⟩
    · rw [fileCount, List.countP_append, List.countP_append]
      have h1 := fileCount_sep_events st.initial_msg (SendDest.channel ch)
      have h2 := fileCount_message_map (SendDest.channel ch) fix_content
        (split_text t).dropLast
      rw [fileCount] at h1 h2
      rw [h1, h2]
      simp [List.countP_cons, isFileEvent]
    · refine ⟨(if st.initial_msg then [SendEvent.message (SendDest.channel ch) sepText] else [])
        ++ (split_text t).dropLast.map
            (fun s => SendEvent.message (SendDest.channel ch) (fix_content s)), ?_, ?_⟩
      · rw [List.append_assoc]
      · intro e he
        simp only [List.mem_append, List.mem_map] at he
        rcases he with he | ⟨s, -, rfl⟩
        · rcases hb : st.initial_msg with _ | _
          · rw [hb] at he
            simp at he
          · rw [hb] at he
            simp only [if_true, List.mem_singleton] at he
            subst he
            rfl
        · rfl
  · simp [send_dm_step, hu, hkwd]
  · simp [send_dm_step, hu, hkwd]

/-- Witness for `C3_file_attachment_amended` on the one-server fixture, where
both the channel `"general"` and the user `"u"` resolve. -/
theorem C3_file_attachment_amended_witness :
    (send_msg_step clientW ⟨cfgBoundW, true⟩ "general" (some ['h', 'i']) (some "f.png")).err
        = none
    ∧ (send_dm_step clientW ⟨cfgBoundW, true⟩ "u" (some ['h', 'i']) (some "f.png")).err
        = some PyError.typeError := by
  have h := C3_file_attachment_amended clientW ⟨cfgBoundW, true⟩ "general" "u" ['h', 'i']
    "f.png" cfgBoundW cfgBoundW ⟨"general"⟩ ⟨"u"⟩ rfl rfl
  exact ⟨h.1.1, h.2.1⟩

/-- C3 counterexample: `send_dm` with a file and a resolved user delivers no
unit at all (the call raises `TypeError`), so it is false that exactly one
delivered unit carries the file attachment. -/
theorem C3_counterexample :
    (send_dm_step clientW ⟨cfgBoundW, false⟩ "u" (some ['h', 'i']) (some "f.png")).events = []
    ∧ fileCount (send_dm_step clientW ⟨cfgBoundW, false⟩ "u"
        (some ['h', 'i']) (some "f.png")).events ≠ 1
    ∧ (send_dm_step clientW ⟨cfgBoundW, false⟩ "u" (some ['h', 'i']) (some "f.png")).err
        = some PyError.typeError := by
  refine ⟨rfl, by decide, rfl⟩

theorem sepCount_sep_events (b : Bool) (d : SendDest) :
    sepCount (if b then [SendEvent.message d sepText] else []) = if b then 1 else 0 := by
  cases b <;> simp [sepCount, List.countP_cons, isSepEvent]

theorem sep_branch_bound (b : Bool) (d : SendDest) (X : List SendEvent)
    (hX : sepCount X = 0) :
    sepCount ((if b then [SendEvent.message d sepText] else []) ++ X)
      + (if (false : Bool) then 1 else 0) ≤ (if b then 1 else 0) := by
  rw [sepCount, List.countP_append]
  rw [sepCount] at hX
  have hsep := sepCount_sep_events b d
  rw [sepCount] at hsep
  rw [hX, hsep]
  simp

theorem send_dm_step_no_sep (client : DClient) (st : OutState) (u : String)
    (t : Option (List Char)) (f : Option String) :
    sepCount (send_dm_step client st u t f).events = 0
    ∧ (send_dm_step client st u t f).state.initial_msg = st.initial_msg := by
  cases hres : get_user_named client st.cfg u with
  | error e => simp [send_dm_step, hres, sepCount]
  | ok p =>
    obtain ⟨cfg2, opt⟩ := p
    cases opt with
    | none => simp [send_dm_step, hres, sepCount]
    | some user =>
      cases f with
      | none =>
        cases t with
        | none => simp [send_dm_step, hres, sepCount]
        | some tt =>
          have h0 := sepCount_message_map (SendDest.user user) tt
          simp [send_dm_step, hres, h0]
      | some fp =>
        have hkw : kwargsValid sendDmFileKwargs = false := by decide
        simp [send_dm_step, hres, hkw, sepCount]

theorem send_step_sep_bound (client : DClient) (st : OutState) (r : SendReq) :
    sepCount (send_step client st r).events
      + (if (send_step client st r).state.initial_msg then 1 else 0)
      ≤ (if st.initial_msg then 1 else 0) := by
  cases r with
  | msg ch t f =>
    cases hres : get_channel_named client st.cfg ch with
    | error e => simp [send_step, send_msg_step, hres, sepCount]
    | ok p =>
      obtain ⟨cfg2, opt⟩ := p
      cases opt with
      | none => simp [send_step, send_msg_step, hres, sepCount]
      | some channel =>
        cases f with
        | none =>
          cases t with
          | none =>
            have hb := sep_branch_bound st.initial_msg (SendDest.channel channel) []
              (by simp [sepCount])
            simpa [send_step, send_msg_step, hres] using hb
          | some tt =>
            have hb := sep_branch_bound st.initial_msg (SendDest.channel channel)
              (send_message_events (SendDest.channel channel) tt)
              (sepCount_message_map _ _)
            simpa [send_step, send_msg_step, hres] using hb
        | some fp =>
          have hkw : kwargsValid sendMsgFileKwargs = true := by decide
          have hb := sep_branch_bound st.initial_msg (SendDest.channel channel)
            (send_file_events (SendDest.channel channel) fp t)
            (sepCount_file_events _ _ _)
          simpa [send_step, send_msg_step, hres, hkw] using hb
  | dm u t f =>
    have h := send_dm_step_no_sep client st u t f
    simp [send_step, h.1, h.2]

theorem run_sends_sep_bound (client : DClient) (reqs : List SendReq) :
    ∀ st : OutState,
      sepCount (run_sends client st reqs).2 ≤ (if st.initial_msg then 1 else 0) := by
  induction reqs with
  | nil => intro st; simp [run_sends, sepCount]
  | cons r rs ih =>
    intro st
    simp only [run_sends]
    rw [sepCount, List.countP_append]
    have h1 := send_step_sep_bound client st r
    have h2 := ih (send_step client st r).state
    rw [sepCount] at h1 h2
    omega

/-- C9 (amended): the session separator is sent only on the channel-send path.
From a fresh instance any send sequence delivers the separator at most once;
once the flag is cleared no separator is ever delivered again; `send_dm` never
delivers a separator and never touches the flag; a first `send_msg` whose
channel resolves delivers the separator as its very first unit, before any
content, and clears the flag. -/
theorem C9_separator_amended (client : DClient) (cfg cfg2 : ConfigState)
    (chname : String) (t : Option (List Char)) (fn : Option String) (ch : DChannel)
    (hres : get_channel_named client cfg chname = Except.ok (cfg2, some ch)) :
    (∀ reqs : List SendReq, sepCount (run_sends client ⟨cfg, true⟩ reqs).2 ≤ 1)
    ∧ (∀ reqs : List SendReq, sepCount (run_sends client ⟨cfg, false⟩ reqs).2 = 0)
    ∧ (∀ (st : OutState) (u : String) (tt : Option (List Char)) (ff : Option String),
        sepCount (send_dm_step client st u tt ff).events = 0
        ∧ (send_dm_step client st u tt ff).state.initial_msg = st.initial_msg)
    ∧ (∃ rest, (send_msg_step client ⟨cfg, true⟩ chname t fn).events
          = SendEvent.message (SendDest.channel ch) sepText :: rest)
    ∧ (send_msg_step client ⟨cfg, true⟩ chname t fn).state.initial_msg = false := by
  refine ⟨?_, ?_, ?_, ?_, ?_⟩
  · intro reqs
    simpa using run_sends_sep_bound client reqs ⟨cfg, true⟩
  · intro reqs
    simpa using run_sends_sep_bound client reqs ⟨cfg, false⟩
  · intro st u tt ff
    exact send_dm_step_no_sep client st u tt ff
  · cases fn with
    | none =>
      cases t with
      | none => exact ⟨[], by simp [send_msg_step, hres]⟩
      | some tt =>
        exact ⟨send_message_events (SendDest.channel ch) tt, by simp [send_msg_step, hres]⟩
    | some fp =>
      have hkw : kwargsValid sendMsgFileKwargs = true := by decide
      exact ⟨send_file_events (SendDest.channel ch) fp t, by simp [send_msg_step, hres, hkw]⟩
  · cases fn with
    | none =>
      cases t with
      | none => simp [send_msg_step, hres]
      | some tt => simp [send_msg_step, hres]
    | some fp =>
      have hkw : kwargsValid sendMsgFileKwargs = true := by decide
      simp [send_msg_step, hres, hkw]

/-- Witness for `C9_separator_amended`: a concrete resolving channel send
clears the flag, and the empty run from a cleared instance has no separator. -/
theorem C9_separator_amended_witness :
    (send_msg_step clientW ⟨cfgBoundW, true⟩ "general" (some ['h', 'i']) none).state.initial_msg
      = false
    ∧ sepCount (run_sends clientW ⟨cfgBoundW, false⟩ []).2 = 0 := by
  have h := C9_separator_amended clientW cfgBoundW cfgBoundW "general" (some ['h', 'i']) none
    ⟨"general"⟩ rfl
  exact ⟨h.2.2.2.2, h.2.1 []⟩

/-- C9 counterexample: on a fresh adapter instance whose first-ever send is a
DM, content is delivered with no session separator at all, refuting the claim
that the first-ever send (send_msg or send_dm) delivers the separator before
its content. -/
theorem C9_counterexample :
    (run_sends clientW ⟨cfgBoundW, true⟩ [SendReq.dm "u" (some ['h', 'i']) none]).2
      = [SendEvent.message (SendDest.user ⟨"u"⟩) ['h', 'i', nlChar]]
    ∧ sepCount (run_sends clientW ⟨cfgBoundW, true⟩ [SendReq.dm "u" (some ['h', 'i']) none]).2
      = 0 :=
  ⟨rfl, by decide⟩
